import Mathlib

/-!
Verification of the silkworm staged-sync core against its specification.

The definitions below are a shallow embedding of the C++ sources:
  * `silkworm/common/util.cpp` : `to_hash`, `to_hex`, `from_hex`;
  * `silkworm/rlp/decode.cpp` : `read_uint64`, `decode_header`,
    `decode<uint64_t>`, `decode<intx::uint256>`;
  * `silkworm/stages/stage_blockhashes.cpp` : `StageBlockHashes::forward`
    and `StageBlockHashes::unwind`;
  * `silkworm/stages/common.hpp` : `StageResult`, `SyncContext::needs_unwind`,
    `IStage` (default `prune`).

Bytes are modelled as `List Nat` (each element a byte value), the MDBX
key-value tables as association lists held in ascending key order (the
order in which an MDBX cursor walks them), and `std::istream` consumption
in the RLP decoder as a function from the remaining byte list.
-/

namespace Silkworm

/-- A byte string: each element is one byte (`< 256`). -/
abbrev Bytes := List Nat

/-- `silkworm::stages::StageResult` from `common.hpp` (stable ordinal order). -/
inductive StageResult
  | kSuccess
  | kUnknownChainId
  | kUnknownConsensusEngine
  | kBadBlockHash
  | kBadChainSequence
  | kInvalidRange
  | kInvalidProgress
  | kInvalidBlock
  | kInvalidTransaction
  | kMissingSenders
  | kDecodingError
  | kUnexpectedError
  | kUnknownError
  | kDbError
  | kAborted
  | kNotImplemented
deriving DecidableEq, Repr

/-- `MDBX_put_flags_t` values used by `StageBlockHashes::forward`. -/
inductive PutMode
  | MDBX_APPEND
  | MDBX_UPSERT
deriving DecidableEq, Repr

/-- `endian::load_big_u64`: big-endian interpretation of a byte string. -/
def load_big_u64 (bs : Bytes) : Nat :=
  bs.foldl (fun acc b => acc * 256 + b) 0

/-- Big-endian encoding of `n` on `w` bytes (low-level helper for `block_key`). -/
def beBytes : Nat → Nat → Bytes
  | 0, _ => []
  | w + 1, n => beBytes w (n / 256) ++ [n % 256]

/-- `db::block_key`: the 8-byte big-endian table key of a block number. -/
def block_key (n : Nat) : Bytes := beBytes 8 n

/-- Byte-lexicographic strict order (MDBX default key comparison). -/
def bytesLt : Bytes → Bytes → Bool
  | [], [] => false
  | [], _ :: _ => true
  | _ :: _, [] => false
  | a :: as, b :: bs => if a < b then true else if b < a then false else bytesLt as bs

/-- `etl::Collector` entry comparison: lexicographic on `(key, value)`. -/
def entryLe (a b : Bytes × Bytes) : Bool :=
  bytesLt a.1 b.1 || (a.1 == b.1 && (bytesLt a.2 b.2 || a.2 == b.2))

/-- Ordered insertion used to model the collector's sort. -/
def insertEntry (x : Bytes × Bytes) : List (Bytes × Bytes) → List (Bytes × Bytes)
  | [] => [x]
  | y :: ys => if entryLe x y then x :: y :: ys else y :: insertEntry x ys

/-- The collector sorts its buffered entries by `(key, value)` before loading. -/
def sortEntries (l : List (Bytes × Bytes)) : List (Bytes × Bytes) :=
  l.foldr insertEntry []

/-- Insert into a sorted table, overwriting an existing key (`MDBX_UPSERT`). -/
def upsertInto : List (Bytes × Bytes) → Bytes → Bytes → List (Bytes × Bytes)
  | [], k, v => [(k, v)]
  | (k0, v0) :: rest, k, v =>
    if bytesLt k k0 then (k, v) :: (k0, v0) :: rest
    else if k = k0 then (k, v) :: rest
    else (k0, v0) :: upsertInto rest k v

/-- `MDBX_APPEND` accepts a key only if it is strictly greater than the last one. -/
def appendOk (tbl : List (Bytes × Bytes)) (k : Bytes) : Bool :=
  match tbl.getLast? with
  | none => true
  | some (k0, _) => bytesLt k0 k

/-- `etl::Collector::load`: stream the sorted entries into the destination
table with the requested put mode; `none` models the `mdbx::exception`
raised when `MDBX_APPEND` meets a non-increasing key. -/
def loadSorted (mode : PutMode) :
    List (Bytes × Bytes) → List (Bytes × Bytes) → Option (List (Bytes × Bytes))
  | tbl, [] => some tbl
  | tbl, (k, v) :: rest =>
    match mode with
    | .MDBX_UPSERT => loadSorted mode (upsertInto tbl k v) rest
    | .MDBX_APPEND =>
      if appendOk tbl k then loadSorted mode (tbl ++ [(k, v)]) rest else none

/-- `SyncStageProgress` lookup; a missing stage key reads as `0`
(`db::stages::read_stage_progress`). -/
def lookupProgress : List (String × Nat) → String → Nat
  | [], _ => 0
  | (k, v) :: rest, key => if k = key then v else lookupProgress rest key

/-- `SyncStageProgress` write (`db::stages::write_stage_progress`). -/
def writeProgress : List (String × Nat) → String → Nat → List (String × Nat)
  | [], key, v => [(key, v)]
  | (k0, v0) :: rest, key, v =>
    if k0 = key then (key, v) :: rest else (k0, v0) :: writeProgress rest key v

/-- The database state visible to the BlockHashes stage: the
`CanonicalHashes` and `HeaderNumbers` tables (association lists in
ascending key order) and the `SyncStageProgress` table. -/
structure Db where
  canonical : List (Bytes × Bytes)
  headerNumbers : List (Bytes × Bytes)
  progress : List (String × Nat)
deriving DecidableEq, Repr

/-- `db::stages::kBlockBodiesKey`. -/
def kBlockBodiesKey : String := "Bodies"

/-- `db::stages::kBlockHashesKey`. -/
def kBlockHashesKey : String := "BlockHashes"

/-- `SyncContext::get_progress` (cache behaviour folded away: within one
stage call the cache and the table agree). -/
def getProgress (db : Db) (key : String) : Nat :=
  lookupProgress db.progress key

/-- `SyncContext::update_progress`. -/
def setProgress (db : Db) (key : String) (v : Nat) : Db :=
  { db with progress := writeProgress db.progress key v }

/-- `mdbx::cursor::find` (exact `MDBX_SET_KEY`) followed by `to_next`
iteration: the suffix of the table starting at the entry whose key is
exactly `key`, or `[]` when that key is absent. -/
def findSuffix : List (Bytes × Bytes) → Bytes → List (Bytes × Bytes)
  | [], _ => []
  | (k, v) :: rest, key => if k = key then (k, v) :: rest else findSuffix rest key

/-- The start block of the scan in `StageBlockHashes::forward`:
`progress ? progress + 1 : progress` applied to the stage's own watermark. -/
def forwardStart (db : Db) : Nat :=
  let p := getProgress db kBlockHashesKey
  if p ≠ 0 then p + 1 else p

/-- The cursor loop of `StageBlockHashes::forward`: walks the canonical
entries, checking the big-endian decoded key against the expected block
number and the value length against `kHashLength`, collecting
`(hash, num_be)` pairs; returns the final `block_number` and the
collector contents, or the `StageResult` of the first failing check. -/
def scanCanonical :
    List (Bytes × Bytes) → Nat → Nat → List (Bytes × Bytes) →
    StageResult ⊕ (Nat × List (Bytes × Bytes))
  | [], _, blockNum, collected => .inr (blockNum, collected)
  | (k, v) :: rest, expected, _, collected =>
    let blockNum := load_big_u64 k
    if blockNum ≠ expected then .inl .kBadChainSequence
    else if v.length ≠ 32 then .inl .kBadBlockHash
    else scanCanonical rest (expected + 1) blockNum (collected ++ [(v, k)])

/-- The outcome of `StageBlockHashes::forward`: the returned
`StageResult`, the database state after the call (unchanged unless the
transaction committed), and the put mode passed to `Collector::load`
(`none` when the load step was never reached). -/
structure ForwardOut where
  result : StageResult
  db : Db
  loadMode : Option PutMode
deriving DecidableEq, Repr

/-- `StageBlockHashes::forward` (`stage_blockhashes.cpp`): derive
`HeaderNumbers` from `CanonicalHashes`, choose `MDBX_APPEND` when the
destination is empty and `MDBX_UPSERT` otherwise, then publish the
watermark and commit. -/
def StageBlockHashes.forward (db : Db) : ForwardOut :=
  let progress_bodies := getProgress db kBlockBodiesKey
  let expected := forwardStart db
  match scanCanonical (findSuffix db.canonical (block_key expected)) expected 0 [] with
  | .inl err => ⟨err, db, none⟩
  | .inr (blockNum, collected) =>
    if blockNum ≠ progress_bodies then ⟨.kBadChainSequence, db, none⟩
    else if collected.isEmpty then ⟨.kSuccess, db, none⟩
    else
      let mode := if db.headerNumbers.isEmpty then PutMode.MDBX_APPEND else PutMode.MDBX_UPSERT
      match loadSorted mode db.headerNumbers (sortEntries collected) with
      | none => ⟨.kDbError, db, some mode⟩
      | some hn =>
        ⟨.kSuccess, setProgress { db with headerNumbers := hn } kBlockHashesKey blockNum, some mode⟩

/-- `SyncContext` state relevant to unwinding: the externally requested
unwind height (`std::optional<BlockNum> unwind_height_`). -/
structure SyncContext where
  unwind_height : Option Nat
deriving DecidableEq, Repr

/-- `SyncContext::needs_unwind`: no unwind point, or a point at or above
the stage's progress, means no work; otherwise the unwind target. -/
def needs_unwind (ctx : SyncContext) (progress : Nat) : Option Nat :=
  match ctx.unwind_height with
  | none => none
  | some h => if h ≥ progress then none else some h

/-- Erase the entry with the given key, if present (cursor seek-and-erase). -/
def eraseKey : List (Bytes × Bytes) → Bytes → List (Bytes × Bytes)
  | [], _ => []
  | (k0, v0) :: rest, k => if k0 = k then rest else (k0, v0) :: eraseKey rest k

/-- The cursor loop of `StageBlockHashes::unwind`: same sequence and hash
length checks as forward; for each canonical hash, seek it in
`HeaderNumbers` and erase it; a missing entry is only logged and skipped. -/
def scanUnwind :
    List (Bytes × Bytes) → Nat → List (Bytes × Bytes) →
    StageResult ⊕ List (Bytes × Bytes)
  | [], _, hn => .inr hn
  | (k, v) :: rest, expected, hn =>
    let blockNum := load_big_u64 k
    if blockNum ≠ expected then .inl .kBadChainSequence
    else if v.length ≠ 32 then .inl .kBadBlockHash
    else scanUnwind rest (expected + 1) (eraseKey hn v)

/-- The start block of the unwind scan:
`unwind_progress ? unwind_progress + 1 : unwind_progress`. -/
def unwindStart (up : Nat) : Nat := if up ≠ 0 then up + 1 else up

/-- `StageBlockHashes::unwind` (`stage_blockhashes.cpp`): early-return
success when no unwind is needed, otherwise delete the inverse entries of
every canonical hash above the unwind point and lower the watermark. -/
def StageBlockHashes.unwind (db : Db) (ctx : SyncContext) : StageResult × Db :=
  match needs_unwind ctx (getProgress db kBlockHashesKey) with
  | none => (.kSuccess, db)
  | some up =>
    let expected := unwindStart up
    match scanUnwind (findSuffix db.canonical (block_key expected)) expected db.headerNumbers with
    | .inl err => (err, db)
    | .inr hn =>
      (.kSuccess, setProgress { db with headerNumbers := hn } kBlockHashesKey up)

/-- The immutable attributes every stage is constructed with
(`IStage` in `common.hpp`). -/
structure IStage where
  stage_key : String
  ordinal : Nat
  has_pruning : Bool
  disabled : Bool
deriving DecidableEq, Repr

/-- The default `IStage::prune` body: it only logs a warning and returns
`kSuccess`, touching no table. `StageBlockHashes` does not override it. -/
def IStage.prune (_s : IStage) (db : Db) : StageResult × Db :=
  (.kSuccess, db)

/-- The `StageBlockHashes` constructor:
`IStage(db::stages::kBlockHashesKey, ordinal, false, false)`. -/
def StageBlockHashes.make (ordinal : Nat) : IStage :=
  ⟨kBlockHashesKey, ordinal, false, false⟩

/-! ### Concrete database states used by the claim scenarios -/

/-- 32 bytes of `0xaa`. -/
def hashAA : Bytes := List.replicate 32 0xaa
/-- 32 bytes of `0xbb`. -/
def hashBB : Bytes := List.replicate 32 0xbb
/-- 32 bytes of `0xcc`. -/
def hashCC : Bytes := List.replicate 32 0xcc
/-- 32 bytes of `0x11` (a genesis hash). -/
def hashGen : Bytes := List.replicate 32 0x11
/-- 32 bytes of `0x44` (another block-0 hash). -/
def hashZZ : Bytes := List.replicate 32 0x44
/-- A 31-byte (too short) value. -/
def hashShort : Bytes := List.replicate 31 0x22

/-- The state of the spec's happy-path scenario: `CanonicalHashes`
exactly `{1 -> 0xaa.., 2 -> 0xbb.., 3 -> 0xcc..}`, `progress(Bodies) = 3`,
`progress(BlockHashes) = 0`, `HeaderNumbers` empty. -/
def dbHappy : Db :=
  ⟨[(block_key 1, hashAA), (block_key 2, hashBB), (block_key 3, hashCC)],
   [], [(kBlockBodiesKey, 3)]⟩

/-- The happy-path state with the genesis entry the code requires when
`progress(BlockHashes) = 0`. -/
def dbGenesis : Db :=
  ⟨[(block_key 0, hashGen), (block_key 1, hashAA), (block_key 2, hashBB),
    (block_key 3, hashCC)],
   [], [(kBlockBodiesKey, 3)]⟩

/-- A fully synced state with equal positive watermarks:
`progress(BlockHashes) = progress(Bodies) = 1` and a well-formed database. -/
def dbEqual : Db :=
  ⟨[(block_key 0, hashZZ), (block_key 1, hashAA)],
   [(hashZZ, block_key 0), (hashAA, block_key 1)],
   [(kBlockBodiesKey, 1), (kBlockHashesKey, 1)]⟩

/-- A state whose canonical table skips block 1 (gap between 0 and 2). -/
def dbGap : Db :=
  ⟨[(block_key 0, hashZZ), (block_key 2, hashBB)], [], [(kBlockBodiesKey, 2)]⟩

/-- A state whose canonical entry for block 1 carries a 31-byte value. -/
def dbBadLen : Db :=
  ⟨[(block_key 0, hashZZ), (block_key 1, hashShort)], [], [(kBlockBodiesKey, 1)]⟩

/-- The state after a successful forward to 3 (genesis variant). -/
def dbSynced : Db :=
  ⟨[(block_key 0, hashGen), (block_key 1, hashAA), (block_key 2, hashBB),
    (block_key 3, hashCC)],
   [(hashGen, block_key 0), (hashAA, block_key 1), (hashBB, block_key 2),
    (hashCC, block_key 3)],
   [(kBlockBodiesKey, 3), (kBlockHashesKey, 3)]⟩

/-- A context requesting an unwind to height 1. -/
def ctxUnwind1 : SyncContext := ⟨some 1⟩

/-! ### `silkworm/common/util.cpp` -/

/-- `std::memcpy(dst + off, src, src.length())` on byte lists. -/
def memcpyAt (dst : Bytes) (off : Nat) (src : Bytes) : Bytes :=
  dst.take off ++ src ++ dst.drop (off + src.length)

/-- `silkworm::to_hash`: zero-initialise a 32-byte output and copy the
first `min(len, 32)` input bytes to its tail. -/
def to_hash (bytes : Bytes) : Bytes :=
  let n := min bytes.length 32
  memcpyAt (List.replicate 32 0) (32 - n) (bytes.take n)

/-- `boost::algorithm::hex_lower` digit for a nibble. -/
def hexLowerDigit (n : Nat) : Char :=
  if n < 10 then Char.ofNat (48 + n) else Char.ofNat (87 + n)

/-- `silkworm::to_hex`: two lowercase hex digits per byte. -/
def to_hex : Bytes → List Char
  | [] => []
  | b :: rest => hexLowerDigit (b / 16) :: hexLowerDigit (b % 16) :: to_hex rest

/-- `boost::algorithm::unhex` digit value of one character, `none` for a
non-hex character (boost throws `non_hex_input`). -/
def unhexDigit (c : Char) : Option Nat :=
  if '0' ≤ c ∧ c ≤ '9' then some (c.toNat - 48)
  else if 'a' ≤ c ∧ c ≤ 'f' then some (c.toNat - 87)
  else if 'A' ≤ c ∧ c ≤ 'F' then some (c.toNat - 55)
  else none

/-- `boost::algorithm::unhex` over a character list; `none` on a bad digit
or an odd number of digits (boost throws `not_enough_input`). -/
def unhexChars : List Char → Option Bytes
  | [] => some []
  | [_] => none
  | hi :: lo :: rest =>
    match unhexDigit hi, unhexDigit lo, unhexChars rest with
    | some h, some l, some bs => some ((16 * h + l) :: bs)
    | _, _, _ => none

/-- The prefix-stripping step of `silkworm::from_hex`:
`hex.length() >= 2 && hex[0] == '0' && (hex[1] == 'x' || hex[1] == 'X')`. -/
def strip0x (hex : List Char) : List Char :=
  match hex with
  | c0 :: c1 :: rest => if c0 = '0' ∧ (c1 = 'x' ∨ c1 = 'X') then rest else hex
  | _ => hex

/-- `silkworm::from_hex`: strip an optional `0x`/`0X` prefix, then unhex. -/
def from_hex (hex : List Char) : Option Bytes :=
  unhexChars (strip0x hex)

/-! ### `silkworm/rlp/decode.cpp` -/

/-- The `DecodingError` messages thrown by the RLP decoder, plus
`inputTooShort` for the `std::ios` failure raised when the stream runs dry
(the stream has `eofbit | failbit | badbit` exceptions enabled). -/
inductive RlpError
  | leadingZeros
  | nonCanonicalSingleByte
  | nonCanonicalSize
  | unexpectedList
  | uint64Overflow
  | uint256Overflow
  | inputTooShort
deriving DecidableEq, Repr

/-- `rlp::read_uint64(from, len)`: `0` for a zero-length read, a
`leading zero(s)` error when the next stream byte is `0`, otherwise the
big-endian value of the next `len` bytes together with the rest of the
stream. -/
def read_uint64 (s : Bytes) (len : Nat) : Except RlpError (Nat × Bytes) :=
  if len = 0 then .ok (0, s)
  else
    match s with
    | [] => .error .inputTooShort
    | b :: _ =>
      if b = 0 then .error .leadingZeros
      else if s.length < len then .error .inputTooShort
      else .ok (load_big_u64 (s.take len), s.drop len)

/-- An RLP item header (`rlp::Header`). -/
structure Header where
  list : Bool
  payload_length : Nat
deriving DecidableEq, Repr

/-- `rlp::decode_header`: consume the header byte(s) and return the header
and the remaining stream; a single byte below `0x80` is un-got, so it
stays in the stream as its own 1-byte payload. -/
def decode_header (s : Bytes) : Except RlpError (Header × Bytes) :=
  match s with
  | [] => .error .inputTooShort
  | b :: rest =>
    if b < 0x80 then .ok (⟨false, 1⟩, b :: rest)
    else if b < 0xB8 then
      let pl := b - 0x80
      if pl = 1 then
        match rest with
        | [] => .error .inputTooShort
        | c :: _ =>
          if c < 0x80 then .error .nonCanonicalSingleByte else .ok (⟨false, 1⟩, rest)
      else .ok (⟨false, pl⟩, rest)
    else if b < 0xC0 then
      match read_uint64 rest (b - 0xB7) with
      | .error e => .error e
      | .ok (pl, rest') =>
        if pl < 56 then .error .nonCanonicalSize else .ok (⟨false, pl⟩, rest')
    else if b < 0xF8 then .ok (⟨true, b - 0xC0⟩, rest)
    else
      match read_uint64 rest (b - 0xF7) with
      | .error e => .error e
      | .ok (pl, rest') =>
        if pl < 56 then .error .nonCanonicalSize else .ok (⟨true, pl⟩, rest')

/-- `rlp::decode<uint64_t>`: header, list and overflow checks, then
`read_uint64` of the payload. -/
def decode_uint64 (s : Bytes) : Except RlpError (Nat × Bytes) :=
  match decode_header s with
  | .error e => .error e
  | .ok (h, rest) =>
    if h.list then .error .unexpectedList
    else if h.payload_length > 8 then .error .uint64Overflow
    else read_uint64 rest h.payload_length

/-- `rlp::decode<intx::uint256>`: header, list and overflow checks; a
zero-length payload is `0`; a payload starting with a zero byte is a
`leading zero(s)` error; otherwise the big-endian payload value. -/
def decode_uint256 (s : Bytes) : Except RlpError (Nat × Bytes) :=
  match decode_header s with
  | .error e => .error e
  | .ok (h, rest) =>
    if h.list then .error .unexpectedList
    else if h.payload_length > 32 then .error .uint256Overflow
    else if h.payload_length = 0 then .ok (0, rest)
    else
      match rest with
      | [] => .error .inputTooShort
      | b :: _ =>
        if b = 0 then .error .leadingZeros
        else if rest.length < h.payload_length then .error .inputTooShort
        else .ok (load_big_u64 (rest.take h.payload_length), rest.drop h.payload_length)

/-- A run of canonical entries that passes every in-loop check of the
forward/unwind cursor scan when reached with `e` as the expected block
number: consecutively numbered keys and 32-byte values. -/
def goodSeq : Nat → List (Bytes × Bytes) → Bool
  | _, [] => true
  | e, (k, v) :: rest => (load_big_u64 k == e) && (v.length == 32) && goodSeq (e + 1) rest

/-- The error component of a scan outcome (`none` when the scan passed). -/
def scanResult : StageResult ⊕ List (Bytes × Bytes) → Option StageResult
  | .inl e => some e
  | .inr _ => none

/-! ## Theorems -/

/-! Sanity anchors mirroring the `uint64` section of `rlp/decode_test.cpp`. -/

example : decode_uint64 [0x09] = .ok (9, []) := rfl
example : decode_uint64 [0x80] = .ok (0, []) := rfl
example : decode_uint64 [0x82, 0x05, 0x05] = .ok (0x0505, []) := rfl
example : decode_uint64 [0x85, 0x05, 0x05, 0x05, 0x05, 0x05] = .ok (0x0505050505, []) := rfl
example : decode_uint64 [0xC0] = .error .unexpectedList := rfl
example : decode_uint64 [0x00] = .error .leadingZeros := rfl
example : decode_uint64 [0x81, 0x05] = .error .nonCanonicalSingleByte := rfl
example : decode_uint64 [0x82, 0x00, 0x04] = .error .leadingZeros := rfl
example : decode_uint64 [0xB8, 0x02, 0x00, 0x04] = .error .nonCanonicalSize := rfl
example : decode_uint64 (0x89 :: List.replicate 9 0xFF) = .error .uint64Overflow := rfl

/-- Claim C1 (counterexample): in the state of the spec's happy-path
scenario — `CanonicalHashes` exactly `{1 -> 0xaa.., 2 -> 0xbb.., 3 -> 0xcc..}`,
`progress(Bodies) = 3`, `progress(BlockHashes) = 0` — `StageBlockHashes::forward`
does not return success: with a zero watermark it seeks `block_key(0)`,
the exact-match find misses, the loop never runs, and the final
`block_number != progress_bodies` check fails with `kBadChainSequence`;
nothing is written. -/
theorem blockhashes_happy_path_counterexample :
    (StageBlockHashes.forward dbHappy).result = .kBadChainSequence ∧
    (StageBlockHashes.forward dbHappy).result ≠ .kSuccess ∧
    (StageBlockHashes.forward dbHappy).db = dbHappy := by decide

/-- Claim C1 (amended): the happy path holds once `CanonicalHashes` also
carries the genesis entry `{0 -> 0x11..}` that the zero-watermark scan
starts from: forward succeeds, `HeaderNumbers` contains exactly the four
inverse entries, and `progress(BlockHashes) = 3`. -/
theorem blockhashes_happy_path_with_genesis :
    (StageBlockHashes.forward dbGenesis).result = .kSuccess ∧
    (StageBlockHashes.forward dbGenesis).db.headerNumbers =
      [(hashGen, block_key 0), (hashAA, block_key 1),
       (hashBB, block_key 2), (hashCC, block_key 3)] ∧
    getProgress (StageBlockHashes.forward dbGenesis).db kBlockHashesKey = 3 := by decide

/-- Claim C2 (divergence witness): in a well-formed state where
`progress(BlockHashes) = progress(Bodies) = 1`, `StageBlockHashes::forward`
does not succeed as a no-op: it seeks `block_key(2)`, which is absent, so
`block_number` stays `0` and the final check returns `kBadChainSequence`
through the code's own "should not happen" branch. -/
theorem blockhashes_equal_progress_divergence :
    getProgress dbEqual kBlockHashesKey = getProgress dbEqual kBlockBodiesKey ∧
    getProgress dbEqual kBlockHashesKey = 1 ∧
    (StageBlockHashes.forward dbEqual).result = .kBadChainSequence ∧
    (StageBlockHashes.forward dbEqual).result ≠ .kSuccess := by decide

/-- Claim C7: the inherited default `IStage::prune` — the one
`StageBlockHashes` (constructed with `has_pruning = false`) leaves in
place — returns `kSuccess` for every stage and every database state and
performs no writes. -/
theorem istage_prune_default :
    (∀ (s : IStage) (db : Db), IStage.prune s db = (.kSuccess, db)) ∧
    (∀ ordinal : Nat,
      (StageBlockHashes.make ordinal).has_pruning = false ∧
      (StageBlockHashes.make ordinal).stage_key = kBlockHashesKey) :=
  ⟨fun _ _ => rfl, fun _ => ⟨rfl, rfl⟩⟩

/-- Claim C10: `to_hash` always yields 32 bytes: the first
`min(len(b), 32)` input bytes right-aligned behind `32 - min(len(b), 32)`
zero bytes, so short inputs are left-zero-padded and long inputs are
truncated to their first 32 bytes. -/
theorem to_hash_right_aligned (b : Bytes) :
    to_hash b =
      List.replicate (32 - min b.length 32) 0 ++ b.take (min b.length 32) ∧
    (to_hash b).length = 32 := by
  have hn : min b.length 32 ≤ 32 := min_le_right _ _
  have hbn : min b.length 32 ≤ b.length := min_le_left _ _
  have hlen : (b.take (min b.length 32)).length = min b.length 32 := by
    rw [List.length_take]
    omega
  have hmain : to_hash b =
      List.replicate (32 - min b.length 32) 0 ++ b.take (min b.length 32) := by
    unfold to_hash memcpyAt
    dsimp only
    rw [hlen, List.take_replicate, List.drop_replicate]
    have h1 : min (32 - min b.length 32) 32 = 32 - min b.length 32 := by omega
    have h2 : 32 - (32 - min b.length 32 + min b.length 32) = 0 := by omega
    rw [h1, h2]
    simp
  refine ⟨hmain, ?_⟩
  rw [hmain]
  simp only [List.length_append, List.length_replicate, hlen]
  omega

/-- A scan that walks a fully checked run and then meets an
out-of-sequence key fails with `kBadChainSequence`, whatever was
accumulated so far. -/
theorem scanCanonical_mismatch :
    ∀ (pre : List (Bytes × Bytes)) (e bn : Nat) (c : List (Bytes × Bytes))
      (k v : Bytes) (rest : List (Bytes × Bytes)),
      goodSeq e pre = true → load_big_u64 k ≠ e + pre.length →
      scanCanonical (pre ++ (k, v) :: rest) e bn c = .inl .kBadChainSequence := by
  intro pre
  induction pre with
  | nil =>
    intro e bn c k v rest _ hk
    simp only [List.nil_append, scanCanonical]
    rw [if_pos (by simpa using hk)]
  | cons kv pre' ih =>
    intro e bn c k v rest hpre hk
    obtain ⟨k0, v0⟩ := kv
    simp only [goodSeq, Bool.and_eq_true, beq_iff_eq] at hpre
    obtain ⟨⟨h1, h2⟩, h3⟩ := hpre
    simp only [List.cons_append, scanCanonical]
    rw [if_neg (by simp [h1]), if_neg (by simp [h2])]
    exact ih (e + 1) _ _ k v rest h3
      (by simp only [List.length_cons] at hk ⊢; omega)

/-- A scan that walks a fully checked run and then meets an in-sequence
entry whose value is not 32 bytes long fails with `kBadBlockHash`. -/
theorem scanCanonical_badLength :
    ∀ (pre : List (Bytes × Bytes)) (e bn : Nat) (c : List (Bytes × Bytes))
      (k v : Bytes) (rest : List (Bytes × Bytes)),
      goodSeq e pre = true → load_big_u64 k = e + pre.length → v.length ≠ 32 →
      scanCanonical (pre ++ (k, v) :: rest) e bn c = .inl .kBadBlockHash := by
  intro pre
  induction pre with
  | nil =>
    intro e bn c k v rest _ hk hv
    simp only [List.nil_append, scanCanonical]
    rw [if_neg (by simpa using hk), if_pos hv]
  | cons kv pre' ih =>
    intro e bn c k v rest hpre hk hv
    obtain ⟨k0, v0⟩ := kv
    simp only [goodSeq, Bool.and_eq_true, beq_iff_eq] at hpre
    obtain ⟨⟨h1, h2⟩, h3⟩ := hpre
    simp only [List.cons_append, scanCanonical]
    rw [if_neg (by simp [h1]), if_neg (by simp [h2])]
    exact ih (e + 1) _ _ k v rest h3
      (by simp only [List.length_cons] at hk ⊢; omega) hv

/-- Claim C3: whenever the forward cursor scan, after any fully checked
run of canonical entries, meets an entry whose big-endian-decoded key is
not the expected next block number, `forward` returns `kBadChainSequence`
and the database is untouched (no load, no watermark update, no commit). -/
theorem blockhashes_forward_out_of_sequence
    (db : Db) (pre rest : List (Bytes × Bytes)) (k v : Bytes)
    (hsplit : findSuffix db.canonical (block_key (forwardStart db)) = pre ++ (k, v) :: rest)
    (hpre : goodSeq (forwardStart db) pre = true)
    (hk : load_big_u64 k ≠ forwardStart db + pre.length) :
    StageBlockHashes.forward db = ⟨.kBadChainSequence, db, none⟩ := by
  have hscan := scanCanonical_mismatch pre (forwardStart db) 0 [] k v rest hpre hk
  simp only [StageBlockHashes.forward, hsplit, hscan]

/-- Claim C3 (witness): the gap state `dbGap` — canonical entries for
blocks 0 and 2 only — makes forward fail with `kBadChainSequence`. -/
theorem blockhashes_forward_out_of_sequence_witness :
    StageBlockHashes.forward dbGap = ⟨.kBadChainSequence, dbGap, none⟩ :=
  blockhashes_forward_out_of_sequence dbGap
    [(block_key 0, hashZZ)] [] (block_key 2) hashBB
    (by decide) (by decide) (by decide)

/-- Claim C4: whenever the forward cursor scan, after any fully checked
run of canonical entries, meets an in-sequence entry whose value is not
32 bytes long, `forward` returns `kBadBlockHash` and the database is
untouched. -/
theorem blockhashes_forward_bad_hash_length
    (db : Db) (pre rest : List (Bytes × Bytes)) (k v : Bytes)
    (hsplit : findSuffix db.canonical (block_key (forwardStart db)) = pre ++ (k, v) :: rest)
    (hpre : goodSeq (forwardStart db) pre = true)
    (hk : load_big_u64 k = forwardStart db + pre.length)
    (hv : v.length ≠ 32) :
    StageBlockHashes.forward db = ⟨.kBadBlockHash, db, none⟩ := by
  have hscan := scanCanonical_badLength pre (forwardStart db) 0 [] k v rest hpre hk hv
  simp only [StageBlockHashes.forward, hsplit, hscan]

/-- Claim C4 (witness): the state `dbBadLen` — block 1 carries a 31-byte
value — makes forward fail with `kBadBlockHash`. -/
theorem blockhashes_forward_bad_hash_length_witness :
    StageBlockHashes.forward dbBadLen = ⟨.kBadBlockHash, dbBadLen, none⟩ :=
  blockhashes_forward_bad_hash_length dbBadLen
    [(block_key 0, hashZZ)] [] (block_key 1) hashShort
    (by decide) (by decide) (by decide) (by decide)

/-- The put mode `forward` hands to `Collector::load`, when it reaches
the load step at all, is fixed by the emptiness of the destination. -/
theorem forward_loadMode (db : Db) :
    (StageBlockHashes.forward db).loadMode = none ∨
    (StageBlockHashes.forward db).loadMode =
      some (if db.headerNumbers.isEmpty then PutMode.MDBX_APPEND else PutMode.MDBX_UPSERT) := by
  unfold StageBlockHashes.forward
  dsimp only
  split
  · left; rfl
  · split
    · left; rfl
    · split
      · left; rfl
      · split
        · right; rfl
        · right; rfl

/-- Claim C5: when `StageBlockHashes::forward` reaches the load step with
a non-empty collector, it loads with `MDBX_APPEND` exactly when
`HeaderNumbers` has zero entries, and with `MDBX_UPSERT` otherwise. -/
theorem blockhashes_forward_load_mode (db : Db) (m : PutMode)
    (h : (StageBlockHashes.forward db).loadMode = some m) :
    (m = .MDBX_APPEND ↔ db.headerNumbers = []) ∧
    (m = .MDBX_UPSERT ↔ db.headerNumbers ≠ []) := by
  rcases forward_loadMode db with h0 | h0
  · rw [h0] at h; cases h
  · rw [h0] at h
    injection h with h1
    subst h1
    cases hH : db.headerNumbers with
    | nil => simp
    | cons x xs => simp

/-- Claim C5 (witness): on the genesis happy-path state, whose
destination table is empty, the load step runs in `MDBX_APPEND` mode. -/
theorem blockhashes_forward_load_mode_witness :
    (StageBlockHashes.forward dbGenesis).loadMode = some PutMode.MDBX_APPEND ∧
    (PutMode.MDBX_APPEND = PutMode.MDBX_APPEND ↔ dbGenesis.headerNumbers = []) :=
  ⟨by decide, (blockhashes_forward_load_mode dbGenesis PutMode.MDBX_APPEND (by decide)).1⟩

/-- Reading back a watermark just written returns the written value. -/
theorem lookupProgress_writeProgress (l : List (String × Nat)) (key : String) (v : Nat) :
    lookupProgress (writeProgress l key v) key = v := by
  induction l with
  | nil => simp [writeProgress, lookupProgress]
  | cons kv rest ih =>
    obtain ⟨k0, v0⟩ := kv
    by_cases h : k0 = key
    · simp [writeProgress, h, lookupProgress]
    · simp [writeProgress, h, lookupProgress, ih]

/-- `getProgress` after `setProgress` on the same stage key. -/
theorem getProgress_setProgress (db : Db) (key : String) (v : Nat) :
    getProgress (setProgress db key v) key = v :=
  lookupProgress_writeProgress db.progress key v

/-- What a positive `needs_unwind` answer says about the context. -/
theorem needs_unwind_some {ctx : SyncContext} {p up : Nat}
    (h : needs_unwind ctx p = some up) : ctx.unwind_height = some up ∧ up < p := by
  unfold needs_unwind at h
  cases hch : ctx.unwind_height with
  | none => rw [hch] at h; cases h
  | some h0 =>
    rw [hch] at h
    dsimp only at h
    by_cases hge : h0 ≥ p
    · rw [if_pos hge] at h; cases h
    · rw [if_neg hge] at h
      injection h with he
      subst he
      exact ⟨hch ▸ rfl, by omega⟩

/-- Whether the unwind scan errors, and with which code, never depends on
the `HeaderNumbers` contents it erases from. -/
theorem scanUnwind_result_indep
    (es : List (Bytes × Bytes)) (e : Nat) (hn hn' : List (Bytes × Bytes)) :
    scanResult (scanUnwind es e hn) = scanResult (scanUnwind es e hn') := by
  induction es generalizing e hn hn' with
  | nil => rfl
  | cons kv rest ih =>
    obtain ⟨k, v⟩ := kv
    simp only [scanUnwind]
    split
    · rfl
    · split
      · rfl
      · exact ih _ _ _

/-- Claim C6: (1) after any successful `StageBlockHashes::unwind`, calling
`unwind` again with the same context early-returns success and changes
nothing (`needs_unwind` sees `progress <= unwind_height`); (2) whether
`unwind` succeeds, and with which code, never depends on the
`HeaderNumbers` contents — a missing inverse entry is skipped, not fatal. -/
theorem blockhashes_unwind_idempotent :
    (∀ (db : Db) (ctx : SyncContext),
        (StageBlockHashes.unwind db ctx).1 = .kSuccess →
        StageBlockHashes.unwind (StageBlockHashes.unwind db ctx).2 ctx =
          (.kSuccess, (StageBlockHashes.unwind db ctx).2)) ∧
    (∀ (db : Db) (ctx : SyncContext) (hn' : List (Bytes × Bytes)),
        (StageBlockHashes.unwind db ctx).1 =
          (StageBlockHashes.unwind { db with headerNumbers := hn' } ctx).1) := by
  constructor
  · intro db ctx hsucc
    cases hnu : needs_unwind ctx (getProgress db kBlockHashesKey) with
    | none =>
      have h1 : StageBlockHashes.unwind db ctx = (.kSuccess, db) := by
        simp only [StageBlockHashes.unwind, hnu]
      rw [h1]
      exact h1
    | some up =>
      obtain ⟨hch, _⟩ := needs_unwind_some hnu
      cases hscan : scanUnwind
          (findSuffix db.canonical (block_key (unwindStart up)))
          (unwindStart up) db.headerNumbers with
      | inl err =>
        have h1 : StageBlockHashes.unwind db ctx = (err, db) := by
          simp only [StageBlockHashes.unwind, hnu, hscan]
        have herr : err = .kSuccess := by rw [h1] at hsucc; exact hsucc
        subst herr
        rw [h1]
        exact h1
      | inr hn =>
        have h1 : StageBlockHashes.unwind db ctx =
            (.kSuccess, setProgress { db with headerNumbers := hn } kBlockHashesKey up) := by
          simp only [StageBlockHashes.unwind, hnu, hscan]
        rw [h1]
        have hp2 : getProgress
            (setProgress { db with headerNumbers := hn } kBlockHashesKey up)
            kBlockHashesKey = up :=
          getProgress_setProgress _ _ _
        have hnu2 : needs_unwind ctx
            (getProgress (setProgress { db with headerNumbers := hn } kBlockHashesKey up)
              kBlockHashesKey) = none := by
          rw [hp2]
          unfold needs_unwind
          rw [hch]
          dsimp only
          rw [if_pos (le_refl up)]
        simp only [StageBlockHashes.unwind, hnu2]
  · intro db ctx hn'
    have e1 : getProgress { db with headerNumbers := hn' } kBlockHashesKey =
        getProgress db kBlockHashesKey := rfl
    cases hnu : needs_unwind ctx (getProgress db kBlockHashesKey) with
    | none =>
      simp only [StageBlockHashes.unwind, e1, hnu]
    | some up =>
      simp only [StageBlockHashes.unwind, e1, hnu]
      have hind := scanUnwind_result_indep
        (findSuffix db.canonical (block_key (unwindStart up)))
        (unwindStart up) db.headerNumbers hn'
      cases h1 : scanUnwind (findSuffix db.canonical (block_key (unwindStart up)))
          (unwindStart up) db.headerNumbers with
      | inl err =>
        cases h2 : scanUnwind (findSuffix db.canonical (block_key (unwindStart up)))
            (unwindStart up) hn' with
        | inl err' =>
          rw [h1, h2] at hind
          simp only [scanResult, Option.some.injEq] at hind
          subst hind
          simp
        | inr hn2 =>
          rw [h1, h2] at hind
          simp [scanResult] at hind
      | inr hn1 =>
        cases h2 : scanUnwind (findSuffix db.canonical (block_key (unwindStart up)))
            (unwindStart up) hn' with
        | inl err' =>
          rw [h1, h2] at hind
          simp [scanResult] at hind
        | inr hn2 =>
          simp

/-- Claim C6 (witness): unwinding the fully synced four-block state to
height 1 succeeds, and a second unwind with the same context is an exact
no-op on the result state. -/
theorem blockhashes_unwind_idempotent_witness :
    (StageBlockHashes.unwind dbSynced ctxUnwind1).1 = .kSuccess ∧
    StageBlockHashes.unwind (StageBlockHashes.unwind dbSynced ctxUnwind1).2 ctxUnwind1 =
      (.kSuccess, (StageBlockHashes.unwind dbSynced ctxUnwind1).2) :=
  ⟨by decide, blockhashes_unwind_idempotent.1 dbSynced ctxUnwind1 (by decide)⟩

/-- `read_uint64` on a non-empty read whose first stream byte is zero. -/
theorem read_uint64_leading_zero (s : Bytes) (len : Nat)
    (hlen : len ≠ 0) (hhead : s.head? = some 0) :
    read_uint64 s len = .error .leadingZeros := by
  obtain ⟨b, rest, rfl⟩ : ∃ b rest, s = b :: rest := by
    cases s with
    | nil => simp at hhead
    | cons b r => exact ⟨b, r, rfl⟩
  have hb : b = 0 := by simpa using hhead
  subst hb
  simp [read_uint64, hlen]

/-- Short-string header of payload length 2..55: consumed as-is. -/
theorem decode_header_short (len : Nat) (s : Bytes) (h1 : 2 ≤ len) (h2 : len ≤ 55) :
    decode_header ((0x80 + len) :: s) = .ok (⟨false, len⟩, s) := by
  simp only [decode_header]
  rw [if_neg (by omega), if_pos (by omega)]
  have hpl : 0x80 + len - 0x80 = len := by omega
  rw [hpl, if_neg (by omega)]

/-- Claim C8 (counterexample): the stream `0x81 0x00` — a declared
one-byte payload whose first (and only) byte is zero — is rejected by
both integer decoders with `non-canonical single byte`, not with
`leading zero(s)` as the claim states. -/
theorem rlp_leading_zero_counterexample :
    decode_uint64 [0x81, 0x00] = .error RlpError.nonCanonicalSingleByte ∧
    decode_uint256 [0x81, 0x00] = .error RlpError.nonCanonicalSingleByte ∧
    RlpError.nonCanonicalSingleByte ≠ RlpError.leadingZeros :=
  ⟨rfl, rfl, by decide⟩

/-- Claim C8 (amended): for a short-form unsigned-integer stream whose
declared payload is non-empty and starts with a zero byte, decoding fails
with `leading zero(s)` — except that a one-byte payload behind an explicit
`0x81` header trips the earlier canonicality check and fails with
`non-canonical single byte`; a zero byte in single-byte form fails with
`leading zero(s)`; a zero-length payload (`0x80`) decodes to `0`. -/
theorem rlp_leading_zero_amended :
    (∀ (payload rest : Bytes), 1 ≤ payload.length → payload.length ≤ 8 →
        payload.head? = some 0 →
        decode_uint64 ((0x80 + payload.length) :: (payload ++ rest)) =
          .error (if payload.length = 1 then RlpError.nonCanonicalSingleByte
                  else RlpError.leadingZeros)) ∧
    (∀ (payload rest : Bytes), 1 ≤ payload.length → payload.length ≤ 32 →
        payload.head? = some 0 →
        decode_uint256 ((0x80 + payload.length) :: (payload ++ rest)) =
          .error (if payload.length = 1 then RlpError.nonCanonicalSingleByte
                  else RlpError.leadingZeros)) ∧
    (∀ rest : Bytes, decode_uint64 (0x00 :: rest) = .error RlpError.leadingZeros) ∧
    (∀ rest : Bytes, decode_uint256 (0x00 :: rest) = .error RlpError.leadingZeros) ∧
    (∀ rest : Bytes, decode_uint64 (0x80 :: rest) = .ok (0, rest)) ∧
    (∀ rest : Bytes, decode_uint256 (0x80 :: rest) = .ok (0, rest)) := by
  refine ⟨?_, ?_, fun _ => rfl, fun _ => rfl, fun _ => rfl, fun _ => rfl⟩
  · intro payload rest h1 h8 hhead
    obtain ⟨p0, ptail, rfl⟩ : ∃ p0 ptail, payload = p0 :: ptail := by
      cases payload with
      | nil => simp at h1
      | cons a l => exact ⟨a, l, rfl⟩
    have hp0 : p0 = 0 := by simpa using hhead
    subst hp0
    cases ptail with
    | nil => rfl
    | cons q qtail =>
      have hL : ((0 : Nat) :: q :: qtail : Bytes).length = qtail.length + 2 := by
        simp [List.length_cons]
      rw [hL] at h8
      rw [hL]
      rw [if_neg (by omega)]
      have hh := decode_header_short (qtail.length + 2)
        ((0 :: q :: qtail : Bytes) ++ rest) (by omega) (by omega)
      simp only [decode_uint64, hh]
      rw [if_neg (by simp), if_neg (by omega)]
      exact read_uint64_leading_zero _ _ (by omega) (by simp)
  · intro payload rest h1 h32 hhead
    obtain ⟨p0, ptail, rfl⟩ : ∃ p0 ptail, payload = p0 :: ptail := by
      cases payload with
      | nil => simp at h1
      | cons a l => exact ⟨a, l, rfl⟩
    have hp0 : p0 = 0 := by simpa using hhead
    subst hp0
    cases ptail with
    | nil => rfl
    | cons q qtail =>
      have hL : ((0 : Nat) :: q :: qtail : Bytes).length = qtail.length + 2 := by
        simp [List.length_cons]
      rw [hL] at h32
      rw [hL]
      rw [if_neg (by omega)]
      have hh := decode_header_short (qtail.length + 2)
        ((0 :: q :: qtail : Bytes) ++ rest) (by omega) (by omega)
      simp only [decode_uint256, hh]
      rw [if_neg (by simp), if_neg (by omega), if_neg (by omega)]
      simp only [List.cons_append]
      simp

/-- Claim C8 (witness): a two-byte payload `00 04` behind an `0x82`
header fails with `leading zero(s)` in the uint64 decoder, and the same
payload behind an `0xA0`-style header fails likewise in the uint256
decoder. -/
theorem rlp_leading_zero_amended_witness :
    decode_uint64 [0x82, 0x00, 0x04] = .error RlpError.leadingZeros ∧
    decode_uint256 [0x82, 0x00, 0x04] = .error RlpError.leadingZeros := by
  constructor
  · have h := rlp_leading_zero_amended.1 [0x00, 0x04] []
      (by decide) (by decide) (by decide)
    simpa using h
  · have h := rlp_leading_zero_amended.2.1 [0x00, 0x04] []
      (by decide) (by decide) (by decide)
    simpa using h

/-- `unhexDigit` inverts `hexLowerDigit` on nibbles. -/
theorem unhexDigit_hexLowerDigit : ∀ d, d < 16 → unhexDigit (hexLowerDigit d) = some d := by
  decide

/-- No nibble hex-encodes to `x` or `X`. -/
theorem hexLowerDigit_ne_x : ∀ d, d < 16 → hexLowerDigit d ≠ 'x' ∧ hexLowerDigit d ≠ 'X' := by
  decide

/-- `unhexChars` inverts `to_hex` on genuine byte strings. -/
theorem unhexChars_to_hex (b : Bytes) (hb : ∀ x ∈ b, x < 256) :
    unhexChars (to_hex b) = some b := by
  induction b with
  | nil => rfl
  | cons x bs ih =>
    have hx : x < 256 := hb x (List.mem_cons_self _ _)
    have hbs : ∀ y ∈ bs, y < 256 := fun y hy => hb y (List.mem_cons_of_mem _ hy)
    simp only [to_hex, unhexChars]
    rw [unhexDigit_hexLowerDigit (x / 16) (by omega),
        unhexDigit_hexLowerDigit (x % 16) (by omega), ih hbs]
    show some ((16 * (x / 16) + x % 16) :: bs) = some (x :: bs)
    have hx16 : 16 * (x / 16) + x % 16 = x := by omega
    rw [hx16]

/-- `to_hex` output never carries a `0x`/`0X` prefix, so `from_hex` does
not strip anything from it. -/
theorem strip0x_to_hex (b : Bytes) (hb : ∀ x ∈ b, x < 256) :
    strip0x (to_hex b) = to_hex b := by
  cases b with
  | nil => rfl
  | cons x bs =>
    have hx : x < 256 := hb x (List.mem_cons_self _ _)
    simp only [to_hex, strip0x]
    rw [if_neg]
    rintro ⟨-, hx1⟩
    rcases hx1 with h | h
    · exact (hexLowerDigit_ne_x (x % 16) (by omega)).1 h
    · exact (hexLowerDigit_ne_x (x % 16) (by omega)).2 h

/-- Claim C9: hex round trip — `from_hex (to_hex b) = b`, and since
`from_hex` strips a leading `0x`, `from_hex ("0x" ++ to_hex b) = b` too. -/
theorem hex_round_trip (b : Bytes) (hb : ∀ x ∈ b, x < 256) :
    from_hex (to_hex b) = some b ∧
    from_hex ('0' :: 'x' :: to_hex b) = some b := by
  constructor
  · unfold from_hex
    rw [strip0x_to_hex b hb]
    exact unhexChars_to_hex b hb
  · unfold from_hex
    have hs : strip0x ('0' :: 'x' :: to_hex b) = to_hex b := by
      simp [strip0x]
    rw [hs]
    exact unhexChars_to_hex b hb

/-- Claim C9 (witness): the round trip on the concrete byte string
`00 ab ff`, with and without the `0x` prefix. -/
theorem hex_round_trip_witness :
    from_hex (to_hex [0x00, 0xab, 0xff]) = some [0x00, 0xab, 0xff] ∧
    from_hex ('0' :: 'x' :: to_hex [0x00, 0xab, 0xff]) = some [0x00, 0xab, 0xff] :=
  hex_round_trip [0x00, 0xab, 0xff] (by decide)

end Silkworm
